import Mathlib

/-!
Shallow embedding of the playback-queue and session state machine of the
offline music player (the `App` React component and its handlers).

Tracks themselves carry no information relevant to the queue machine, so the
song library is abstracted to its length `nSongs`; both queues hold library
indices, exactly as in the source (`playQueue`/`originalQueue : number[]`).
JavaScript's `-1` sentinel for a failed `indexOf`/`findIndex` is modelled by
an explicit membership test guarding `List.indexOf` (the source only ever
compares the sentinel against `-1` or `> 0`, so the two encodings agree).
`currentSongIndex : number | null` becomes `Option Nat`.  Elapsed seconds and
the playback rate are only copied around by the modelled operations, never
computed with, so `Nat` and `Rat` respectively are faithful carriers.
-/

namespace MusicPlayer

/-- RepeatMode enum from `types.ts` (spec section 3: NONE, ALL, ONE). -/
inductive RepeatMode where
  | NONE
  | ALL
  | ONE
deriving DecidableEq, Repr

/-- Queue-relevant state of the `App` component (`useState` hooks):
`songs.length`, `currentSongIndex`, `isPlaying`, `repeatMode`, `isShuffled`,
`playQueue`, `originalQueue`, `initialTime`, `playbackRate`. -/
structure AppState where
  nSongs : Nat
  currentSongIndex : Option Nat
  isPlaying : Bool
  repeatMode : RepeatMode
  isShuffled : Bool
  playQueue : List Nat
  originalQueue : List Nat
  initialTime : Nat
  playbackRate : Rat
deriving DecidableEq, Repr

/-- Initial values of the `useState` hooks on mount:
`songs=[]`, `currentSongIndex=null`, `isPlaying=false`,
`repeatMode=RepeatMode.NONE`, `isShuffled=false`, `playQueue=[]`,
`originalQueue=[]`, `initialTime=0`, `playbackRate=1`. -/
def initialAppState : AppState where
  nSongs := 0
  currentSongIndex := none
  isPlaying := false
  repeatMode := RepeatMode.NONE
  isShuffled := false
  playQueue := []
  originalQueue := []
  initialTime := 0
  playbackRate := 1

/-- Persisted snapshot (`musicPlayerState` in localStorage): the record built
in the save effect — `songCount`, `playQueue`, `originalQueue`,
`currentSongIndex`, `isShuffled`, `repeatMode`, `playbackRate`,
`currentTime`. -/
structure SavedState where
  songCount : Nat
  playQueue : List Nat
  originalQueue : List Nat
  currentSongIndex : Option Nat
  isShuffled : Bool
  repeatMode : RepeatMode
  playbackRate : Rat
  currentTime : Nat
deriving DecidableEq, Repr

/-- Fresh initialization path of `processAudioFiles` (the code after the
saved-state check): `initialQueue = newSongs.map((_, index) => index)`;
sets both queues to the identity, `currentSongIndex = 0`, `isPlaying =
false`, `initialTime = 0`, `playbackRate = 1`.  Note the source resets
neither `isShuffled` nor `repeatMode` here. -/
def freshInit (n : Nat) (s : AppState) : AppState :=
  { s with
    nSongs := n
    originalQueue := List.range n
    playQueue := List.range n
    currentSongIndex := some 0
    isPlaying := false
    initialTime := 0
    playbackRate := 1 }

/-- The state transition of `processAudioFiles`: `n` is the number of audio
files found (`newSongs.length`), `saved` the parsed localStorage snapshot
(`none` when absent or unparsable).  An empty file list returns early
(alert, no state change).  A snapshot is applied only when
`savedState.songCount === newSongs.length` (the `savedState.playQueue`
truthiness test always passes for a well-formed record: arrays are truthy);
it overlays both queues, the position, the flags, the rate (`|| 1`) and the
elapsed time (`|| 0`, the identity on numbers) and always starts paused.
Otherwise the fresh initialization runs. -/
def processAudioFiles (n : Nat) (saved : Option SavedState) (s : AppState) :
    AppState :=
  if n = 0 then s
  else
    match saved with
    | some st =>
      if st.songCount = n then
        { s with
          nSongs := n
          playQueue := st.playQueue
          originalQueue := st.originalQueue
          currentSongIndex := st.currentSongIndex
          isShuffled := st.isShuffled
          repeatMode := st.repeatMode
          initialTime := st.currentTime
          playbackRate := if st.playbackRate = 0 then 1 else st.playbackRate
          isPlaying := false }
      else freshInit n s
    | none => freshInit n s

/-- Handler `togglePlayPause`: with no selection and a non-empty library it
selects index 0 and plays; otherwise it flips `isPlaying`. -/
def togglePlayPause (s : AppState) : AppState :=
  if s.currentSongIndex = none ∧ 0 < s.nSongs then
    { s with currentSongIndex := some 0, isPlaying := true }
  else
    { s with isPlaying := !s.isPlaying }

/-- Handler `playNext`: no-op when nothing is selected; increments the queue
position; past the end it wraps to 0 under `RepeatMode.ALL` and otherwise
only stops playback; every successful advance restarts at time 0 and
plays. -/
def playNext (s : AppState) : AppState :=
  match s.currentSongIndex with
  | none => s
  | some ci =>
    let nextIndex := ci + 1
    if s.playQueue.length ≤ nextIndex then
      if s.repeatMode = RepeatMode.ALL then
        { s with initialTime := 0, currentSongIndex := some 0, isPlaying := true }
      else
        { s with isPlaying := false }
    else
      { s with initialTime := 0, currentSongIndex := some nextIndex, isPlaying := true }

/-- Handler `playPrev`: no-op when nothing is selected; otherwise
`(currentSongIndex - 1 + playQueue.length) % playQueue.length`, written
`(ci + len - 1) % len` so that the numerator stays in `Nat` (the two agree
since `ci + len ≥ 1` whenever a song is selected in a live state). -/
def playPrev (s : AppState) : AppState :=
  match s.currentSongIndex with
  | none => s
  | some ci =>
    let prevIndex := (ci + s.playQueue.length - 1) % s.playQueue.length
    { s with initialTime := 0, currentSongIndex := some prevIndex, isPlaying := true }

/-- Handler `playSong(index)` (reached from `handleSongSelect`): look the
library index up in `playQueue` (`findIndex`), falling back to
`originalQueue.indexOf`; a hit selects that offset, resets the time when the
position actually changes, and plays; a double miss is a silent no-op. -/
def playSong (index : Nat) (s : AppState) : AppState :=
  if index ∈ s.playQueue then
    let queueIndex := s.playQueue.indexOf index
    { s with
      initialTime := if s.currentSongIndex ≠ some queueIndex then 0 else s.initialTime
      currentSongIndex := some queueIndex
      isPlaying := true }
  else if index ∈ s.originalQueue then
    let originalIndex := s.originalQueue.indexOf index
    { s with
      initialTime := if s.currentSongIndex ≠ some originalIndex then 0 else s.initialTime
      currentSongIndex := some originalIndex
      isPlaying := true }
  else s

/-- Continuity swap inside `toggleShuffle` when enabling: with `cur` the
selected song's library index, `const currentInShuffled =
newQueue.indexOf(cur)` and, when `currentInShuffled > 0` (the `-1`
missing-sentinel and offset 0 both skip the swap), the destructuring swap
`[newQueue[0], newQueue[i]] = [newQueue[i], newQueue[0]]`. -/
def shuffleNewQueue (shuf : List Nat) (cur : Nat) : List Nat :=
  if cur ∈ shuf ∧ 0 < shuf.indexOf cur then
    let i := shuf.indexOf cur
    (shuf.set 0 (shuf.getD i 0)).set i (shuf.getD 0 0)
  else shuf

/-- Handler `toggleShuffle`.  `shuf` stands for the value of
`[...originalQueue].sort(() => Math.random() - 0.5)` — an arbitrary
permutation of `originalQueue` produced by the runtime's sort (theorems take
the permutation property as a hypothesis).  Enabling: if a song is selected
and its library index sits at a positive offset of `shuf`
(`currentInShuffled > 0`), that entry is swapped with slot 0; the position
becomes 0.  Disabling: the queue reverts to `originalQueue` and the position
becomes the selected song's offset there (JavaScript's `indexOf`; the
element is always present in live states), or 0 with no selection. -/
def toggleShuffle (shuf : List Nat) (s : AppState) : AppState :=
  if !s.isShuffled then
    let currentSongOriginalIndex : Option Nat :=
      s.currentSongIndex.map (fun ci => s.playQueue.getD ci 0)
    let newQueue :=
      match currentSongOriginalIndex with
      | some cur => shuffleNewQueue shuf cur
      | none => shuf
    { s with isShuffled := true, playQueue := newQueue, currentSongIndex := some 0 }
  else
    match s.currentSongIndex.map (fun ci => s.playQueue.getD ci 0) with
    | some cur =>
      { s with
        isShuffled := false
        playQueue := s.originalQueue
        currentSongIndex := some (s.originalQueue.indexOf cur) }
    | none =>
      { s with
        isShuffled := false
        playQueue := s.originalQueue
        currentSongIndex := some 0 }

/-- Index compaction used by `handleConfirmDelete` on both queues:
`queue.filter(i => i !== deleted).map(i => (i > deleted ? i - 1 : i))`. -/
def compactQueue (deleted : Nat) (queue : List Nat) : List Nat :=
  (queue.filter (fun i => i ≠ deleted)).map (fun i => if deleted < i then i - 1 else i)

/-- Handler `handleConfirmDelete`.  The three booleans are the outcomes of
the external effects, in source order: `hasHandle` (`directoryHandle`
non-null, part of the entry guard with `songToDelete === null`), `granted`
(the re-checked `readwrite` permission), `removeOk` (the awaited
`removeEntry` and path traversal did not throw; a throw lands in the
`catch`).  The returned boolean records whether a failure `alert` was shown.
Queue state is only touched after a successful physical removal; deleting
the last song empties everything; otherwise both queues are compacted and
the position recomputed exactly as in the source (`% newPlayQueue.length`
when the selected song itself was deleted, with the elapsed time reset;
an `indexOf` relocation otherwise). -/
def handleConfirmDelete (songToDelete : Option Nat)
    (hasHandle granted removeOk : Bool) (s : AppState) : AppState × Bool :=
  match songToDelete with
  | none => (s, false)
  | some deletedSongIndex =>
    if !hasHandle then (s, false)
    else if !granted then (s, true)
    else if !removeOk then (s, true)
    else
      let newSongsLen := s.nSongs - (if deletedSongIndex < s.nSongs then 1 else 0)
      if newSongsLen = 0 then
        ({ s with
            nSongs := 0
            originalQueue := []
            playQueue := []
            currentSongIndex := none
            isPlaying := false }, false)
      else
        let newOriginalQueue := compactQueue deletedSongIndex s.originalQueue
        let newPlayQueue := compactQueue deletedSongIndex s.playQueue
        match s.currentSongIndex with
        | some oldQueueIndex =>
          let oldPlayingOriginalIndex := s.playQueue.getD oldQueueIndex 0
          if oldPlayingOriginalIndex = deletedSongIndex then
            ({ s with
                nSongs := newSongsLen
                originalQueue := newOriginalQueue
                playQueue := newPlayQueue
                currentSongIndex := some (oldQueueIndex % newPlayQueue.length)
                initialTime := 0 }, false)
          else
            let newPlayingOriginalIndex :=
              if deletedSongIndex < oldPlayingOriginalIndex then
                oldPlayingOriginalIndex - 1
              else oldPlayingOriginalIndex
            let newCurrentSongIndex :=
              if newPlayingOriginalIndex ∈ newPlayQueue then
                newPlayQueue.indexOf newPlayingOriginalIndex
              else 0
            ({ s with
                nSongs := newSongsLen
                originalQueue := newOriginalQueue
                playQueue := newPlayQueue
                currentSongIndex := some newCurrentSongIndex }, false)
        | none =>
          ({ s with
              nSongs := newSongsLen
              originalQueue := newOriginalQueue
              playQueue := newPlayQueue
              currentSongIndex := some 0 }, false)

/-- Position sanity: when a song is selected its queue offset is in range. -/
def posOK (s : AppState) : Prop :=
  match s.currentSongIndex with
  | none => True
  | some p => p < s.playQueue.length

instance (s : AppState) : Decidable (posOK s) :=
  match h : s.currentSongIndex with
  | none => isTrue (by simp [posOK, h])
  | some p =>
    if hp : p < s.playQueue.length then
      isTrue (by simp [posOK, h, hp])
    else isFalse (by simp [posOK, h, hp])

/-- Queue invariant: both queues are permutations of `[0..nSongs-1]` and the
selected position, when present, is in range. -/
def Inv (s : AppState) : Prop :=
  s.playQueue.Perm (List.range s.nSongs) ∧
  s.originalQueue.Perm (List.range s.nSongs) ∧ posOK s

instance (s : AppState) : Decidable (Inv s) := by
  unfold Inv; infer_instance

/-- Reachable states of the program: the mounted component, closed under the
queue-mutating handlers.  Library (re)loads carry no applicable snapshot
(`processAudioFiles n none`); `toggleShuffle` requires a selected song, the
UI rendering the shuffle button only inside the `Player`, which is mounted
only when `currentSong` is non-null; a delete confirmation concerns an index
of the rendered song list (`songToDelete < songs.length`) and needs the
directory handle that very guard demands. -/
inductive Reachable : AppState → Prop where
  | mount : Reachable initialAppState
  | load (n : Nat) {s : AppState} :
      Reachable s → Reachable (processAudioFiles n none s)
  | play {s : AppState} : Reachable s → Reachable (togglePlayPause s)
  | next {s : AppState} : Reachable s → Reachable (playNext s)
  | prev {s : AppState} : Reachable s → Reachable (playPrev s)
  | shuffle (shuf : List Nat) {s : AppState}
      (hperm : shuf.Perm s.originalQueue) (hsel : s.currentSongIndex ≠ none) :
      Reachable s → Reachable (toggleShuffle shuf s)
  | select (i : Nat) {s : AppState} : Reachable s → Reachable (playSong i s)
  | remove (d : Nat) (granted removeOk : Bool) {s : AppState}
      (hd : d < s.nSongs) :
      Reachable s →
      Reachable (handleConfirmDelete (some d) true granted removeOk s).1

/-- Concrete snapshot whose `songCount` (10) cannot match a 2-track
library; used to exercise the discard path of the reconciliation. -/
def staleSnapshot : SavedState where
  songCount := 10
  playQueue := [0]
  originalQueue := [0]
  currentSongIndex := some 0
  isShuffled := false
  repeatMode := RepeatMode.NONE
  playbackRate := 1
  currentTime := 0

/-- Concrete snapshot matching a 2-track library. -/
def matchingSnapshot : SavedState where
  songCount := 2
  playQueue := [1, 0]
  originalQueue := [0, 1]
  currentSongIndex := some 1
  isShuffled := true
  repeatMode := RepeatMode.ALL
  playbackRate := 1
  currentTime := 7

/-- A reachable state with shuffle enabled: 3 tracks loaded, then
shuffled. -/
def preShuffledState : AppState :=
  toggleShuffle [2, 1, 0] (processAudioFiles 3 none initialAppState)

/-- A reachable state with shuffle on and an active order differing from
the canonical order: 2 tracks loaded, shuffled, advanced once, unshuffled,
shuffled again. -/
def reachableShuffledState : AppState :=
  toggleShuffle [1, 0]
    (toggleShuffle [0, 1]
      (playNext
        (toggleShuffle [1, 0] (processAudioFiles 2 none initialAppState))))

/-! Helper lemmas shared by the claim theorems. -/

/-- Moving the entry at offset `j` of `t` to the front while writing `a`
into its slot permutes `a :: t`. -/
lemma cons_set_perm (t : List Nat) (j a : Nat) (hj : j < t.length) :
    (t.getD j 0 :: t.set j a).Perm (a :: t) := by
  induction t generalizing j with
  | nil => simp at hj
  | cons b u ih =>
    cases j with
    | zero => simpa using List.Perm.swap a b u
    | succ j =>
      have hj' : j < u.length := by simpa using hj
      simp only [List.getD_cons_succ, List.set_cons_succ]
      have h1 : (u.getD j 0 :: b :: u.set j a).Perm (b :: u.getD j 0 :: u.set j a) :=
        List.Perm.swap _ _ _
      have h2 : (b :: u.getD j 0 :: u.set j a).Perm (b :: a :: u) :=
        (ih j hj').cons b
      have h3 : (b :: a :: u).Perm (a :: b :: u) := List.Perm.swap _ _ _
      exact (h1.trans h2).trans h3

/-- The slot-0 swap performed by `toggleShuffle` when enabling is a
permutation of the shuffled list. -/
lemma set_set_perm (l : List Nat) (i : Nat) (hi : i < l.length) (h0 : 0 < i) :
    ((l.set 0 (l.getD i 0)).set i (l.getD 0 0)).Perm l := by
  cases l with
  | nil => simp at hi
  | cons a t =>
    obtain ⟨j, rfl⟩ : ∃ j, i = j + 1 := ⟨i - 1, by omega⟩
    have hj : j < t.length := by simpa using hi
    simpa using cons_set_perm t j a hj

/-- Deleting `d` from the identity range and shifting the survivors down
yields the identity range one shorter. -/
lemma compactQueue_range (n d : Nat) (hd : d < n) :
    compactQueue d (List.range n) = List.range (n - 1) := by
  induction n with
  | zero => omega
  | succ n ih =>
    unfold compactQueue at *
    rw [List.range_succ, List.filter_append, List.map_append]
    by_cases h : d < n
    · have hne : (n ≠ d) := by omega
      rw [ih h]
      have h1 : List.filter (fun i => decide (i ≠ d)) [n] = [n] := by
        simp [List.filter_cons, hne]
      rw [h1]
      have h2 : List.map (fun i => if d < i then i - 1 else i) [n] = [n - 1] := by
        simp [h]
      rw [h2]
      obtain ⟨m, rfl⟩ : ∃ m, n = m + 1 := ⟨n - 1, by omega⟩
      simp [List.range_succ]
    · have hdn : d = n := by omega
      have h1 : List.filter (fun i => decide (i ≠ d)) [n] = [] := by
        simp [List.filter_cons, hdn]
      have h2 : List.filter (fun i => decide (i ≠ d)) (List.range n) = List.range n := by
        rw [List.filter_eq_self]
        intro a ha
        have : a < n := List.mem_range.mp ha
        simp; omega
      rw [h1, h2]
      have h3 : List.map (fun i => if d < i then i - 1 else i) (List.range n)
          = List.range n := by
        have hpt : ∀ a ∈ List.range n, (fun i => if d < i then i - 1 else i) a = id a := by
          intro a ha
          have : a < n := List.mem_range.mp ha
          simp
          omega
        rw [List.map_congr_left hpt, List.map_id]
      simp only [List.map_nil, List.append_nil, h3, Nat.add_sub_cancel]

/-- Compaction preserves being a permutation of the library's index range. -/
lemma compactQueue_perm {q : List Nat} {n d : Nat}
    (hq : q.Perm (List.range n)) (hd : d < n) :
    (compactQueue d q).Perm (List.range (n - 1)) := by
  have h1 : (compactQueue d q).Perm (compactQueue d (List.range n)) :=
    (hq.filter _).map _
  rwa [compactQueue_range n d hd] at h1

/-- Surviving entries land in the compacted queue, at their shifted value. -/
lemma mem_compactQueue {q : List Nat} {d x : Nat} (hx : x ∈ q) (hne : x ≠ d) :
    (if d < x then x - 1 else x) ∈ compactQueue d q :=
  List.mem_map_of_mem _ (List.mem_filter.mpr ⟨hx, by simp [hne]⟩)

lemma shuffleNewQueue_perm (shuf : List Nat) (cur : Nat) :
    (shuffleNewQueue shuf cur).Perm shuf := by
  unfold shuffleNewQueue
  split
  next hc => exact set_set_perm shuf _ (List.indexOf_lt_length.mpr hc.1) hc.2
  next hc => exact List.Perm.refl _

/-- After the enabling swap the selected song's library index sits at
offset 0 of the new active order. -/
lemma shuffleNewQueue_head {shuf : List Nat} {cur : Nat} (hmem : cur ∈ shuf) :
    (shuffleNewQueue shuf cur).getD 0 0 = cur := by
  have hi : shuf.indexOf cur < shuf.length := List.indexOf_lt_length.mpr hmem
  unfold shuffleNewQueue
  by_cases hpos : 0 < shuf.indexOf cur
  · rw [if_pos ⟨hmem, hpos⟩]
    have hlen2 : 0 <
        ((shuf.set 0 (shuf.getD (shuf.indexOf cur) 0)).set (shuf.indexOf cur)
          (shuf.getD 0 0)).length := by
      simp only [List.length_set]
      omega
    rw [List.getD_eq_getElem _ _ hlen2]
    rw [List.getElem_set_ne (by omega)]
    rw [List.getElem_set_self]
    rw [List.getD_eq_getElem _ _ hi]
    exact List.getElem_indexOf hi
  · rw [if_neg (fun hc => hpos hc.2)]
    have h0 : shuf.indexOf cur = 0 := by omega
    have hlen : 0 < shuf.length := by omega
    rw [List.getD_eq_getElem _ _ hlen]
    have hx := List.getElem_indexOf hi
    simp only [h0] at hx
    exact hx

lemma toggleShuffle_enable_none {shuf : List Nat} {s : AppState}
    (hoff : s.isShuffled = false) (hci : s.currentSongIndex = none) :
    toggleShuffle shuf s =
      { s with
        isShuffled := true
        playQueue := shuf
        currentSongIndex := some 0 } := by
  simp only [toggleShuffle, hoff, Bool.not_false, if_true, hci,
    Option.map_none']

lemma toggleShuffle_enable_some {shuf : List Nat} {s : AppState} {p : Nat}
    (hoff : s.isShuffled = false) (hp : s.currentSongIndex = some p) :
    toggleShuffle shuf s =
      { s with
        isShuffled := true
        playQueue := shuffleNewQueue shuf (s.playQueue.getD p 0)
        currentSongIndex := some 0 } := by
  simp only [toggleShuffle, hoff, Bool.not_false, if_true, hp,
    Option.map_some']

lemma toggleShuffle_disable_none {shuf : List Nat} {s : AppState}
    (hon : s.isShuffled = true) (hci : s.currentSongIndex = none) :
    toggleShuffle shuf s =
      { s with
        isShuffled := false
        playQueue := s.originalQueue
        currentSongIndex := some 0 } := by
  simp only [toggleShuffle, hon, Bool.not_true, Bool.false_eq_true, if_false,
    hci, Option.map_none']

lemma toggleShuffle_disable_some {shuf : List Nat} {s : AppState} {p : Nat}
    (hon : s.isShuffled = true) (hp : s.currentSongIndex = some p) :
    toggleShuffle shuf s =
      { s with
        isShuffled := false
        playQueue := s.originalQueue
        currentSongIndex :=
          some (s.originalQueue.indexOf (s.playQueue.getD p 0)) } := by
  simp only [toggleShuffle, hon, Bool.not_true, Bool.false_eq_true, if_false,
    hp, Option.map_some']

lemma posOK_some {s : AppState} {p : Nat} (h : Inv s)
    (hp : s.currentSongIndex = some p) : p < s.playQueue.length := by
  have := h.2.2
  unfold posOK at this
  rw [hp] at this
  exact this

lemma length_playQueue {s : AppState} (h : Inv s) :
    s.playQueue.length = s.nSongs := by
  simpa using h.1.length_eq

lemma length_originalQueue {s : AppState} (h : Inv s) :
    s.originalQueue.length = s.nSongs := by
  simpa using h.2.1.length_eq

lemma inv_initialAppState : Inv initialAppState := by decide

lemma inv_freshInit (n : Nat) (hn : 0 < n) (s : AppState) :
    Inv (freshInit n s) :=
  ⟨List.Perm.refl _, List.Perm.refl _, by simpa [freshInit, posOK] using hn⟩

lemma inv_processAudioFiles (n : Nat) (s : AppState) (h : Inv s) :
    Inv (processAudioFiles n none s) := by
  unfold processAudioFiles
  by_cases hn : n = 0
  · simpa [hn] using h
  · simpa [hn] using inv_freshInit n (by omega) s

lemma inv_togglePlayPause {s : AppState} (h : Inv s) :
    Inv (togglePlayPause s) := by
  unfold togglePlayPause
  split
  case isTrue hc =>
    refine ⟨h.1, h.2.1, ?_⟩
    have hlen := length_playQueue h
    unfold posOK
    simp only
    omega
  case isFalse => exact ⟨h.1, h.2.1, h.2.2⟩

lemma inv_playNext {s : AppState} (h : Inv s) : Inv (playNext s) := by
  unfold playNext
  cases hci : s.currentSongIndex with
  | none => exact h
  | some ci =>
    have hp : ci < s.playQueue.length := posOK_some h hci
    simp only
    split
    · split
      · exact ⟨h.1, h.2.1, by unfold posOK; simp only; omega⟩
      · exact ⟨h.1, h.2.1, by unfold posOK; simp only [hci]; omega⟩
    · exact ⟨h.1, h.2.1, by unfold posOK; simp only; omega⟩

lemma inv_playPrev {s : AppState} (h : Inv s) : Inv (playPrev s) := by
  unfold playPrev
  cases hci : s.currentSongIndex with
  | none => exact h
  | some ci =>
    have hp : ci < s.playQueue.length := posOK_some h hci
    exact ⟨h.1, h.2.1, by
      unfold posOK
      simp only
      exact Nat.mod_lt _ (by omega)⟩

lemma inv_playSong (i : Nat) {s : AppState} (h : Inv s) :
    Inv (playSong i s) := by
  unfold playSong
  split
  case isTrue hmem =>
    refine ⟨h.1, h.2.1, ?_⟩
    unfold posOK
    simp only
    exact List.indexOf_lt_length.mpr hmem
  case isFalse =>
    split
    case isTrue hmem =>
      refine ⟨h.1, h.2.1, ?_⟩
      unfold posOK
      simp only
      have h1 : s.originalQueue.indexOf i < s.originalQueue.length :=
        List.indexOf_lt_length.mpr hmem
      have h2 := length_playQueue h
      have h3 := length_originalQueue h
      omega
    case isFalse => exact h

lemma inv_toggleShuffle {shuf : List Nat} {s : AppState}
    (hperm : shuf.Perm s.originalQueue) (hsel : s.currentSongIndex ≠ none)
    (h : Inv s) : Inv (toggleShuffle shuf s) := by
  obtain ⟨p, hp⟩ : ∃ p, s.currentSongIndex = some p := by
    cases hci : s.currentSongIndex with
    | none => exact absurd hci hsel
    | some p => exact ⟨p, rfl⟩
  have hplt : p < s.playQueue.length := posOK_some h hp
  have hn : 0 < s.nSongs := by
    have := length_playQueue h
    omega
  have hlenShuf : shuf.length = s.nSongs := by
    have h1 := hperm.length_eq
    have h2 := length_originalQueue h
    omega
  have hshufPerm : shuf.Perm (List.range s.nSongs) := hperm.trans h.2.1
  cases hsh : s.isShuffled with
  | false =>
    rw [toggleShuffle_enable_some hsh hp]
    refine ⟨(shuffleNewQueue_perm shuf _).trans hshufPerm, h.2.1, ?_⟩
    unfold posOK
    simp only
    have := (shuffleNewQueue_perm shuf (s.playQueue.getD p 0)).length_eq
    omega
  | true =>
    rw [toggleShuffle_disable_some hsh hp]
    refine ⟨h.2.1, h.2.1, ?_⟩
    unfold posOK
    simp only
    have hcur : s.playQueue.getD p 0 ∈ s.playQueue := by
      rw [List.getD_eq_getElem _ _ hplt]
      exact List.getElem_mem _
    have hmemo : s.playQueue.getD p 0 ∈ s.originalQueue :=
      (h.1.trans h.2.1.symm).mem_iff.mp hcur
    exact List.indexOf_lt_length.mpr hmemo

lemma inv_handleConfirmDelete (d : Nat) (granted removeOk : Bool)
    {s : AppState} (hd : d < s.nSongs) (h : Inv s) :
    Inv (handleConfirmDelete (some d) true granted removeOk s).1 := by
  unfold handleConfirmDelete
  cases granted with
  | false => simpa using h
  | true =>
    cases removeOk with
    | false => simpa using h
    | true =>
      simp only [handleConfirmDelete, Bool.not_true, Bool.false_eq_true,
        if_false, if_pos hd]
      have hq1 := compactQueue_perm h.1 hd
      have hq2 := compactQueue_perm h.2.1 hd
      have hlen1 : (compactQueue d s.playQueue).length = s.nSongs - 1 := by
        simpa using hq1.length_eq
      by_cases hempty : s.nSongs - 1 = 0
      · rw [if_pos hempty]
        exact ⟨by simp, by simp, by unfold posOK; simp⟩
      · rw [if_neg hempty]
        cases hci : s.currentSongIndex with
        | none =>
          simp only [hci]
          exact ⟨hq1, hq2, by unfold posOK; simp only; omega⟩
        | some p =>
          simp only [hci]
          split
          · exact ⟨hq1, hq2, by
              unfold posOK
              simp only
              exact Nat.mod_lt _ (by omega)⟩
          · refine ⟨hq1, hq2, ?_⟩
            unfold posOK
            simp only
            by_cases hmem :
                (if d < s.playQueue.getD p 0 then s.playQueue.getD p 0 - 1
                  else s.playQueue.getD p 0) ∈ compactQueue d s.playQueue
            · rw [if_pos hmem]
              exact List.indexOf_lt_length.mpr hmem
            · rw [if_neg hmem]
              omega

/-- Every reachable state satisfies the queue invariant. -/
lemma inv_reachable {s : AppState} (h : Reachable s) : Inv s := by
  induction h with
  | mount => exact inv_initialAppState
  | load n _ ih => exact inv_processAudioFiles n _ ih
  | play _ ih => exact inv_togglePlayPause ih
  | next _ ih => exact inv_playNext ih
  | prev _ ih => exact inv_playPrev ih
  | shuffle shuf hperm hsel _ ih => exact inv_toggleShuffle hperm hsel ih
  | select i _ ih => exact inv_playSong i ih
  | remove d granted removeOk hd _ ih =>
      exact inv_handleConfirmDelete d granted removeOk hd ih

/-! Claim theorems. -/

/-- C1: at every reachable state, the active order (`playQueue`) and the
canonical order (`originalQueue`) are both permutations of
`[0..trackCount-1]`; this holds after initialize and is preserved by every
operation, in particular `toggleShuffle` and deletion compaction. -/
theorem C1_queues_are_permutations {s : AppState} (h : Reachable s) :
    s.playQueue.Perm (List.range s.nSongs) ∧
    s.originalQueue.Perm (List.range s.nSongs) :=
  ⟨(inv_reachable h).1, (inv_reachable h).2.1⟩

theorem C1_queues_are_permutations_witness :
    (processAudioFiles 3 none initialAppState).playQueue.Perm
      (List.range (processAudioFiles 3 none initialAppState).nSongs) ∧
    (processAudioFiles 3 none initialAppState).originalQueue.Perm
      (List.range (processAudioFiles 3 none initialAppState).nSongs) :=
  C1_queues_are_permutations (Reachable.load 3 Reachable.mount)

/-- C2: at every reachable state with a non-null position, the position is a
valid offset into the active order and resolves to a live track index
(`activeOrder[position] < trackCount`). -/
theorem C2_position_resolves {s : AppState} (h : Reachable s) (p : Nat)
    (hp : s.currentSongIndex = some p) :
    p < s.playQueue.length ∧ s.playQueue.getD p 0 < s.nSongs := by
  have hInv := inv_reachable h
  have h1 := posOK_some hInv hp
  refine ⟨h1, ?_⟩
  have hmem : s.playQueue.getD p 0 ∈ s.playQueue := by
    rw [List.getD_eq_getElem _ _ h1]
    exact List.getElem_mem _
  exact List.mem_range.mp (hInv.1.mem_iff.mp hmem)

theorem C2_position_resolves_witness :
    (processAudioFiles 2 none initialAppState).currentSongIndex = some 0 ∧
    (0 < (processAudioFiles 2 none initialAppState).playQueue.length ∧
      (processAudioFiles 2 none initialAppState).playQueue.getD 0 0 <
        (processAudioFiles 2 none initialAppState).nSongs) :=
  ⟨rfl, C2_position_resolves (Reachable.load 2 Reachable.mount) 0 rfl⟩

/-- C5: `next` increments the position; at the last index a further `next`
wraps to 0 under `RepeatMode.ALL` and otherwise stops playback with the
position unchanged at the last valid index; `prev` always decrements with
modular wraparound, independent of the repeat mode. -/
theorem C5_advance {s : AppState} (p : Nat)
    (hp : s.currentSongIndex = some p) :
    (p + 1 < s.playQueue.length →
      (playNext s).currentSongIndex = some (p + 1)) ∧
    (p + 1 = s.playQueue.length →
      (s.repeatMode = RepeatMode.ALL →
        (playNext s).currentSongIndex = some 0) ∧
      (s.repeatMode ≠ RepeatMode.ALL →
        (playNext s).currentSongIndex = some p ∧
        p = s.playQueue.length - 1 ∧
        (playNext s).isPlaying = false)) ∧
    (playPrev s).currentSongIndex =
      some ((p + s.playQueue.length - 1) % s.playQueue.length) := by
  refine ⟨?_, ?_, ?_⟩
  · intro hlt
    have hcond : ¬(s.playQueue.length ≤ p + 1) := by omega
    simp only [playNext, hp, if_neg hcond]
  · intro heq
    have hcond : s.playQueue.length ≤ p + 1 := by omega
    constructor
    · intro hall
      simp only [playNext, hp, if_pos hcond, if_pos hall]
    · intro hnall
      have h1 : playNext s = { s with isPlaying := false } := by
        simp only [playNext, hp, if_pos hcond, if_neg hnall]
      rw [h1]
      exact ⟨hp, by omega, rfl⟩
  · simp only [playPrev, hp]

theorem C5_advance_witness :
    ((0 : Nat) + 1 < (freshInit 2 initialAppState).playQueue.length →
      (playNext (freshInit 2 initialAppState)).currentSongIndex =
        some (0 + 1)) ∧
    ((0 : Nat) + 1 = (freshInit 2 initialAppState).playQueue.length →
      ((freshInit 2 initialAppState).repeatMode = RepeatMode.ALL →
        (playNext (freshInit 2 initialAppState)).currentSongIndex =
          some 0) ∧
      ((freshInit 2 initialAppState).repeatMode ≠ RepeatMode.ALL →
        (playNext (freshInit 2 initialAppState)).currentSongIndex =
          some 0 ∧
        (0 : Nat) = (freshInit 2 initialAppState).playQueue.length - 1 ∧
        (playNext (freshInit 2 initialAppState)).isPlaying = false)) ∧
    (playPrev (freshInit 2 initialAppState)).currentSongIndex =
      some ((0 + (freshInit 2 initialAppState).playQueue.length - 1) %
        (freshInit 2 initialAppState).playQueue.length) :=
  C5_advance 0 rfl

/-- C7: the two-phase deletion leaves the queue model completely unchanged
and reports the failure to the user whenever the permission re-check or the
physical file removal fails. -/
theorem C7_delete_failure_atomic (s : AppState) (d : Nat)
    (granted removeOk : Bool) (hfail : granted = false ∨ removeOk = false) :
    (handleConfirmDelete (some d) true granted removeOk s).1 = s ∧
    (handleConfirmDelete (some d) true granted removeOk s).2 = true := by
  rcases hfail with hg | hk
  · subst hg
    exact ⟨rfl, rfl⟩
  · subst hk
    cases granted
    · exact ⟨rfl, rfl⟩
    · exact ⟨rfl, rfl⟩

theorem C7_delete_failure_atomic_witness :
    (handleConfirmDelete (some 0) true false true
        (freshInit 1 initialAppState)).1 = freshInit 1 initialAppState ∧
    (handleConfirmDelete (some 0) true false true
        (freshInit 1 initialAppState)).2 = true :=
  C7_delete_failure_atomic (freshInit 1 initialAppState) 0 false true
    (Or.inl rfl)

/-- C9 as stated is false: on an empty queue model `togglePlayPause` flips
the `isPlaying` flag instead of leaving it unchanged (the
`currentSongIndex === null && songs.length > 0` guard fails, so the handler
falls through to `setIsPlaying(prev => !prev)`). -/
theorem C9_counterexample :
    initialAppState.nSongs = 0 ∧ initialAppState.isPlaying = false ∧
    (togglePlayPause initialAppState).isPlaying = true := by
  exact ⟨rfl, rfl, rfl⟩

/-- C9 (amended): on an empty queue model, `next` and `prev` are complete
no-ops; `togglePlayPause` leaves every queue field unchanged but toggles
the `isPlaying` flag. -/
theorem C9_empty_library_ops {s : AppState} (h : Inv s) (hn : s.nSongs = 0) :
    playNext s = s ∧ playPrev s = s ∧
    togglePlayPause s = { s with isPlaying := !s.isPlaying } := by
  have hci : s.currentSongIndex = none := by
    cases hc : s.currentSongIndex with
    | none => rfl
    | some p =>
      have h1 := posOK_some h hc
      have h2 := length_playQueue h
      omega
  have hcond : ¬(s.currentSongIndex = none ∧ 0 < s.nSongs) := by
    intro hcc
    omega
  refine ⟨?_, ?_, ?_⟩
  · simp only [playNext, hci]
  · simp only [playPrev, hci]
  · simp only [togglePlayPause, if_neg hcond]

theorem C9_empty_library_ops_witness :
    playNext initialAppState = initialAppState ∧
    playPrev initialAppState = initialAppState ∧
    togglePlayPause initialAppState =
      { initialAppState with isPlaying := !initialAppState.isPlaying } :=
  C9_empty_library_ops (by decide) rfl

/-- C10: confirming a deletion while no track is selected, with at least one
track surviving, leaves the first entry of the compacted active order
selected (`position = 0`) rather than keeping the null selection. -/
theorem C10_delete_unselected_selects_zero {s : AppState} (d : Nat)
    (hci : s.currentSongIndex = none) (hn : 1 < s.nSongs)
    (hd : d < s.nSongs) :
    (handleConfirmDelete (some d) true true true s).1.currentSongIndex =
      some 0 := by
  have hne : ¬(s.nSongs - 1 = 0) := by omega
  simp only [handleConfirmDelete, Bool.not_true, Bool.false_eq_true,
    if_false, if_pos hd, hci, if_neg hne]

theorem C10_delete_unselected_selects_zero_witness :
    (handleConfirmDelete (some 0) true true true
        { initialAppState with
          nSongs := 2
          playQueue := [0, 1]
          originalQueue := [0, 1] }).1.currentSongIndex = some 0 :=
  C10_delete_unselected_selects_zero 0 rfl (by decide) (by decide)

/-- C3: confirmed deletion of library index `d` compacts both orders
(removing the entry equal to `d` and decrementing larger survivors); if the
selected entry itself was deleted the new position is the old one modulo
the compacted length and the elapsed time resets to 0; if a different entry
was deleted the position relocates to the same, shifted, library index with
elapsed time preserved; deleting the last remaining track nulls the
position. -/
theorem C3_remove_library_index {s r : AppState} {p : Nat} (h : Inv s)
    (d : Nat) (hp : s.currentSongIndex = some p) (hd : d < s.nSongs)
    (hr : r = (handleConfirmDelete (some d) true true true s).1) :
    r.originalQueue = compactQueue d s.originalQueue ∧
    r.playQueue = compactQueue d s.playQueue ∧
    (s.playQueue.getD p 0 = d → 1 < s.nSongs →
      r.currentSongIndex = some (p % r.playQueue.length) ∧
      r.initialTime = 0) ∧
    (s.playQueue.getD p 0 ≠ d →
      ∃ q, r.currentSongIndex = some q ∧
        r.playQueue.getD q 0 =
          (if d < s.playQueue.getD p 0 then s.playQueue.getD p 0 - 1
            else s.playQueue.getD p 0) ∧
        r.initialTime = s.initialTime) ∧
    (s.nSongs = 1 → r.currentSongIndex = none) := by
  have hplt : p < s.playQueue.length := posOK_some h hp
  have hlenp := length_playQueue h
  have hcurmem : s.playQueue.getD p 0 ∈ s.playQueue := by
    rw [List.getD_eq_getElem _ _ hplt]
    exact List.getElem_mem _
  have hcurlt : s.playQueue.getD p 0 < s.nSongs :=
    List.mem_range.mp (h.1.mem_iff.mp hcurmem)
  subst hr
  by_cases hn1 : s.nSongs - 1 = 0
  · -- the deleted track was the last one
    have hcur0 : s.playQueue.getD p 0 = 0 := by omega
    have hd0 : d = 0 := by omega
    have hred : (handleConfirmDelete (some d) true true true s).1 =
        { s with
          nSongs := 0
          originalQueue := []
          playQueue := []
          currentSongIndex := none
          isPlaying := false } := by
      simp only [handleConfirmDelete, Bool.not_true, Bool.false_eq_true,
        if_false, if_pos hd, if_pos hn1]
    have hoq : compactQueue d s.originalQueue = [] := by
      have hper := compactQueue_perm h.2.1 hd
      simp only [hn1, List.range_zero] at hper
      exact hper.eq_nil
    have hpq : compactQueue d s.playQueue = [] := by
      have hper := compactQueue_perm h.1 hd
      simp only [hn1, List.range_zero] at hper
      exact hper.eq_nil
    rw [hred]
    refine ⟨hoq.symm, hpq.symm, ?_, ?_, fun _ => rfl⟩
    · intro _ hgt
      omega
    · intro hne
      exact absurd (by omega : s.playQueue.getD p 0 = d) hne
  · by_cases hod : s.playQueue.getD p 0 = d
    · -- the selected entry was deleted
      have hred : (handleConfirmDelete (some d) true true true s).1 =
          { s with
            nSongs := s.nSongs - 1
            originalQueue := compactQueue d s.originalQueue
            playQueue := compactQueue d s.playQueue
            currentSongIndex :=
              some (p % (compactQueue d s.playQueue).length)
            initialTime := 0 } := by
        simp only [handleConfirmDelete, Bool.not_true, Bool.false_eq_true,
          if_false, if_pos hd, if_neg hn1, hp, if_pos hod]
      rw [hred]
      exact ⟨rfl, rfl, fun _ _ => ⟨rfl, rfl⟩, fun hne => absurd hod hne,
        fun h1 => absurd h1 (by omega)⟩
    · -- a different entry was deleted
      have hmem :
          (if d < s.playQueue.getD p 0 then s.playQueue.getD p 0 - 1
            else s.playQueue.getD p 0) ∈ compactQueue d s.playQueue :=
        mem_compactQueue hcurmem hod
      have hred : (handleConfirmDelete (some d) true true true s).1 =
          { s with
            nSongs := s.nSongs - 1
            originalQueue := compactQueue d s.originalQueue
            playQueue := compactQueue d s.playQueue
            currentSongIndex :=
              some ((compactQueue d s.playQueue).indexOf
                (if d < s.playQueue.getD p 0 then s.playQueue.getD p 0 - 1
                  else s.playQueue.getD p 0)) } := by
        simp only [handleConfirmDelete, Bool.not_true, Bool.false_eq_true,
          if_false, if_pos hd, if_neg hn1, hp, if_neg hod, if_pos hmem]
      rw [hred]
      have hidx : (compactQueue d s.playQueue).indexOf
          (if d < s.playQueue.getD p 0 then s.playQueue.getD p 0 - 1
            else s.playQueue.getD p 0) <
          (compactQueue d s.playQueue).length :=
        List.indexOf_lt_length.mpr hmem
      refine ⟨rfl, rfl, fun hc _ => absurd hc hod, ?_,
        fun h1 => absurd h1 (by omega)⟩
      intro _
      refine ⟨_, rfl, ?_, rfl⟩
      rw [List.getD_eq_getElem _ _ hidx]
      exact List.getElem_indexOf hidx

theorem C3_remove_library_index_witness :
    ((handleConfirmDelete (some 1) true true true
        (freshInit 3 initialAppState)).1.originalQueue =
      compactQueue 1 (freshInit 3 initialAppState).originalQueue ∧
    (handleConfirmDelete (some 1) true true true
        (freshInit 3 initialAppState)).1.playQueue =
      compactQueue 1 (freshInit 3 initialAppState).playQueue ∧
    ((freshInit 3 initialAppState).playQueue.getD 0 0 = 1 →
      1 < (freshInit 3 initialAppState).nSongs →
      (handleConfirmDelete (some 1) true true true
          (freshInit 3 initialAppState)).1.currentSongIndex =
        some (0 % (handleConfirmDelete (some 1) true true true
          (freshInit 3 initialAppState)).1.playQueue.length) ∧
      (handleConfirmDelete (some 1) true true true
          (freshInit 3 initialAppState)).1.initialTime = 0) ∧
    ((freshInit 3 initialAppState).playQueue.getD 0 0 ≠ 1 →
      ∃ q, (handleConfirmDelete (some 1) true true true
          (freshInit 3 initialAppState)).1.currentSongIndex = some q ∧
        (handleConfirmDelete (some 1) true true true
            (freshInit 3 initialAppState)).1.playQueue.getD q 0 =
          (if 1 < (freshInit 3 initialAppState).playQueue.getD 0 0 then
            (freshInit 3 initialAppState).playQueue.getD 0 0 - 1
          else (freshInit 3 initialAppState).playQueue.getD 0 0) ∧
        (handleConfirmDelete (some 1) true true true
            (freshInit 3 initialAppState)).1.initialTime =
          (freshInit 3 initialAppState).initialTime) ∧
    ((freshInit 3 initialAppState).nSongs = 1 →
      (handleConfirmDelete (some 1) true true true
          (freshInit 3 initialAppState)).1.currentSongIndex = none)) :=
  C3_remove_library_index (inv_freshInit 3 (by omega) initialAppState) 1
    rfl (by decide) rfl

/-- C4: enabling shuffle installs a permutation of the canonical order with
the selected track's library index at slot 0 and sets the position to 0;
disabling restores the canonical order and points the position at the
selected track's offset there, or 0 when nothing is selected. -/
theorem C4_toggle_shuffle_continuity {s : AppState} {shuf : List Nat}
    (h : Inv s) (hperm : shuf.Perm s.originalQueue) :
    (s.isShuffled = false →
      (toggleShuffle shuf s).playQueue.Perm s.originalQueue ∧
      (toggleShuffle shuf s).currentSongIndex = some 0 ∧
      (∀ p, s.currentSongIndex = some p →
        (toggleShuffle shuf s).playQueue.getD 0 0 =
          s.playQueue.getD p 0)) ∧
    (s.isShuffled = true →
      (toggleShuffle shuf s).playQueue = s.originalQueue ∧
      (s.currentSongIndex = none →
        (toggleShuffle shuf s).currentSongIndex = some 0) ∧
      (∀ p, s.currentSongIndex = some p →
        (toggleShuffle shuf s).currentSongIndex =
          some (s.originalQueue.indexOf (s.playQueue.getD p 0)) ∧
        (toggleShuffle shuf s).playQueue.getD
          (s.originalQueue.indexOf (s.playQueue.getD p 0)) 0 =
          s.playQueue.getD p 0)) := by
  constructor
  · intro hoff
    cases hci : s.currentSongIndex with
    | none =>
      rw [toggleShuffle_enable_none hoff hci]
      refine ⟨hperm, rfl, ?_⟩
      intro p hp
      exact absurd hp (by simp)
    | some p0 =>
      rw [toggleShuffle_enable_some hoff hci]
      have hplt : p0 < s.playQueue.length := posOK_some h hci
      have hcurmem : s.playQueue.getD p0 0 ∈ s.playQueue := by
        rw [List.getD_eq_getElem _ _ hplt]
        exact List.getElem_mem _
      have hcurshuf : s.playQueue.getD p0 0 ∈ shuf :=
        ((h.1.trans h.2.1.symm).trans hperm.symm).mem_iff.mp hcurmem
      refine ⟨(shuffleNewQueue_perm shuf _).trans hperm, rfl, ?_⟩
      intro p hp
      injection hp with hpp
      subst hpp
      exact shuffleNewQueue_head hcurshuf
  · intro hon
    cases hci : s.currentSongIndex with
    | none =>
      rw [toggleShuffle_disable_none hon hci]
      refine ⟨rfl, fun _ => rfl, ?_⟩
      intro p hp
      exact absurd hp (by simp)
    | some p0 =>
      rw [toggleShuffle_disable_some hon hci]
      have hplt : p0 < s.playQueue.length := posOK_some h hci
      have hcurmem : s.playQueue.getD p0 0 ∈ s.playQueue := by
        rw [List.getD_eq_getElem _ _ hplt]
        exact List.getElem_mem _
      have hmemo : s.playQueue.getD p0 0 ∈ s.originalQueue :=
        (h.1.trans h.2.1.symm).mem_iff.mp hcurmem
      have hidx : s.originalQueue.indexOf (s.playQueue.getD p0 0) <
          s.originalQueue.length := List.indexOf_lt_length.mpr hmemo
      refine ⟨rfl, ?_, ?_⟩
      · intro hnone
        exact absurd hnone (by simp)
      · intro p hp
        injection hp with hpp
        subst hpp
        refine ⟨rfl, ?_⟩
        rw [List.getD_eq_getElem _ _ hidx]
        exact List.getElem_indexOf hidx

theorem C4_toggle_shuffle_continuity_witness :
    (toggleShuffle [1, 0] (freshInit 2 initialAppState)).playQueue.Perm
      (freshInit 2 initialAppState).originalQueue ∧
    (toggleShuffle [1, 0] (freshInit 2 initialAppState)).currentSongIndex =
      some 0 ∧
    (toggleShuffle [1, 0] (freshInit 2 initialAppState)).playQueue.getD 0 0 =
      (freshInit 2 initialAppState).playQueue.getD 0 0 := by
  have hw := (@C4_toggle_shuffle_continuity (freshInit 2 initialAppState)
    [1, 0] (inv_freshInit 2 (by omega) initialAppState) (by decide)).1 rfl
  exact ⟨hw.1, hw.2.1, hw.2.2 0 rfl⟩

/-- C6 as stated is false: when the snapshot's track count mismatches, the
fallback initialization resets the orders, position, elapsed time, rate and
playing flag, but it does not reset the shuffle flag (nor the repeat mode),
so the resulting queue model differs from a fresh `initialize` whenever
shuffle was on.  Witnessed from a reachable shuffled state against a
10-track snapshot reconciled with a 2-track library. -/
theorem C6_counterexample :
    Reachable preShuffledState ∧
    preShuffledState.isShuffled = true ∧
    staleSnapshot.songCount ≠ 2 ∧
    (processAudioFiles 2 (some staleSnapshot) preShuffledState).isShuffled =
      true := by
  refine ⟨?_, by decide, by decide, by decide⟩
  exact Reachable.shuffle [2, 1, 0] (by decide) (by decide)
    (Reachable.load 3 Reachable.mount)

/-- C6 (amended): a snapshot applies exactly when its `songCount` matches
the fresh library size; a match overlays both orders, the position, the
shuffle flag, the repeat mode, the playback rate and the elapsed time, and
always starts paused; a mismatch discards the snapshot and runs the fresh
initialization, which resets orders, position, elapsed time, rate and
playing flag but leaves the shuffle flag and repeat mode at their previous
values. -/
theorem C6_snapshot_reconcile {s : AppState} {st : SavedState} {n : Nat}
    (hn : 0 < n) (hrate : st.playbackRate ≠ 0) :
    (st.songCount = n →
      processAudioFiles n (some st) s =
        { s with
          nSongs := n
          playQueue := st.playQueue
          originalQueue := st.originalQueue
          currentSongIndex := st.currentSongIndex
          isShuffled := st.isShuffled
          repeatMode := st.repeatMode
          initialTime := st.currentTime
          playbackRate := st.playbackRate
          isPlaying := false }) ∧
    (st.songCount ≠ n →
      processAudioFiles n (some st) s = freshInit n s) := by
  have hn' : ¬(n = 0) := by omega
  constructor
  · intro hmatch
    simp only [processAudioFiles, if_neg hn', if_pos hmatch, if_neg hrate]
  · intro hmiss
    simp only [processAudioFiles, if_neg hn', if_neg hmiss]

theorem C6_snapshot_reconcile_witness :
    (matchingSnapshot.songCount = 2 →
      processAudioFiles 2 (some matchingSnapshot) initialAppState =
        { initialAppState with
          nSongs := 2
          playQueue := matchingSnapshot.playQueue
          originalQueue := matchingSnapshot.originalQueue
          currentSongIndex := matchingSnapshot.currentSongIndex
          isShuffled := matchingSnapshot.isShuffled
          repeatMode := matchingSnapshot.repeatMode
          initialTime := matchingSnapshot.currentTime
          playbackRate := matchingSnapshot.playbackRate
          isPlaying := false }) ∧
    (matchingSnapshot.songCount ≠ 2 →
      processAudioFiles 2 (some matchingSnapshot) initialAppState =
        freshInit 2 initialAppState) :=
  C6_snapshot_reconcile (by omega) (by decide)

/-- C8 as stated is false: from a reachable state in which shuffle is
already on, toggling twice first restores the canonical order and then
re-shuffles, so the pair of calls ends with shuffle on and an active order
that differs from the canonical order. -/
theorem C8_counterexample :
    Reachable reachableShuffledState ∧
    reachableShuffledState.nSongs ≠ 0 ∧
    (toggleShuffle [1, 0]
        (toggleShuffle [0, 1] reachableShuffledState)).playQueue ≠
      reachableShuffledState.originalQueue := by
  refine ⟨?_, by decide, by decide⟩
  exact Reachable.shuffle [1, 0] (by decide) (by decide)
    (Reachable.shuffle [0, 1] (by decide) (by decide)
      (Reachable.next
        (Reachable.shuffle [1, 0] (by decide) (by decide)
          (Reachable.load 2 Reachable.mount))))

/-- C8 (amended): from a state with shuffle OFF, toggling twice restores
`activeOrder == canonicalOrder`, and when a track was selected the position
points at the same track as before the pair of calls. -/
theorem C8_double_toggle_restores {s : AppState} {shuf1 shuf2 : List Nat}
    (h : Inv s) (hoff : s.isShuffled = false)
    (hperm1 : shuf1.Perm s.originalQueue) :
    (toggleShuffle shuf2 (toggleShuffle shuf1 s)).playQueue =
      s.originalQueue ∧
    ∀ p, s.currentSongIndex = some p →
      ∃ q, (toggleShuffle shuf2 (toggleShuffle shuf1 s)).currentSongIndex =
          some q ∧
        (toggleShuffle shuf2 (toggleShuffle shuf1 s)).playQueue.getD q 0 =
          s.playQueue.getD p 0 := by
  cases hci : s.currentSongIndex with
  | none =>
    rw [toggleShuffle_enable_none hoff hci]
    rw [toggleShuffle_disable_some rfl rfl]
    refine ⟨rfl, ?_⟩
    intro p hp
    exact absurd hp (by simp)
  | some p0 =>
    have hplt : p0 < s.playQueue.length := posOK_some h hci
    have hcurmem : s.playQueue.getD p0 0 ∈ s.playQueue := by
      rw [List.getD_eq_getElem _ _ hplt]
      exact List.getElem_mem _
    have hmemo : s.playQueue.getD p0 0 ∈ s.originalQueue :=
      (h.1.trans h.2.1.symm).mem_iff.mp hcurmem
    have hmem1 : s.playQueue.getD p0 0 ∈ shuf1 :=
      hperm1.symm.mem_iff.mp hmemo
    rw [toggleShuffle_enable_some hoff hci]
    rw [toggleShuffle_disable_some rfl rfl]
    refine ⟨rfl, ?_⟩
    intro p hp
    injection hp with hpp
    subst hpp
    refine ⟨_, rfl, ?_⟩
    show s.originalQueue.getD
        (s.originalQueue.indexOf
          ((shuffleNewQueue shuf1 (s.playQueue.getD p0 0)).getD 0 0)) 0 =
      s.playQueue.getD p0 0
    rw [shuffleNewQueue_head hmem1]
    have hidx : s.originalQueue.indexOf (s.playQueue.getD p0 0) <
        s.originalQueue.length := List.indexOf_lt_length.mpr hmemo
    rw [List.getD_eq_getElem _ _ hidx]
    exact List.getElem_indexOf hidx

theorem C8_double_toggle_restores_witness :
    (toggleShuffle [0, 1]
        (toggleShuffle [1, 0] (freshInit 2 initialAppState))).playQueue =
      (freshInit 2 initialAppState).originalQueue ∧
    ∃ q, (toggleShuffle [0, 1]
        (toggleShuffle [1, 0]
          (freshInit 2 initialAppState))).currentSongIndex = some q ∧
      (toggleShuffle [0, 1]
          (toggleShuffle [1, 0]
            (freshInit 2 initialAppState))).playQueue.getD q 0 =
        (freshInit 2 initialAppState).playQueue.getD 0 0 := by
  have hw := @C8_double_toggle_restores (freshInit 2 initialAppState)
    [1, 0] [0, 1] (inv_freshInit 2 (by omega) initialAppState) rfl
    (by decide)
  exact ⟨hw.1, hw.2 0 rfl⟩

end MusicPlayer
